import Mathlib

/-
Verification of the oberst command-grammar engine.

The repository has two lineages:
  * the flat-form lineage (`src/oberst/src/{lib,parser}.rs` plus the
    `define_command!` macro in `src/oberst_proc/src/lib.rs`), and
  * the tree lineage (`src/src/{lib,parser,matchers,arguments}.rs`).

Strings are modelled as `List Char`; inputs in all claims are ASCII, so Rust
byte offsets and char offsets coincide.  Rust code that can panic (an
out-of-bounds slice, `Option::expect`, `Result::unwrap`) is modelled with
`Option`, `none` standing for the panic.
-/

deriving instance DecidableEq for Except

namespace Oberst

/-- Mirrors `struct CommandParser { command: &str, offset: usize }` shared by
`src/oberst/src/parser.rs` and `src/src/parser.rs`. -/
structure CommandParser where
  command : List Char
  offset : Nat
deriving DecidableEq, Repr

/-- Mirrors `enum ParseErrorKind` (`src/src/parser.rs`; the oberst lineage has
the same variants minus `ExpectedWhitespace`). -/
inductive ParseErrorKind where
  | UnknownCommand
  | UnexpectedEof
  | ExpectedEof
  | BadArgument
  | BadLiteral
  | ExpectedWhitespace
deriving DecidableEq, Repr

/-- Mirrors `struct ParseError { command, offset, kind }`. -/
structure ParseError where
  command : List Char
  offset : Nat
  kind : ParseErrorKind
deriving DecidableEq, Repr

/-- `CommandParser::new`. -/
def CommandParser.new (command : List Char) : CommandParser :=
  { command := command, offset := 0 }

/-- The substring `self.command[self.offset..]`. -/
def CommandParser.rest (p : CommandParser) : List Char :=
  p.command.drop p.offset

/-- `CommandParser::error`. -/
def CommandParser.mkError (p : CommandParser) (kind : ParseErrorKind) : ParseError :=
  { command := p.command, offset := p.offset, kind := kind }

/-- `CommandParser::lit`: advance past `lit` iff the remaining input starts
with it, else `BadLiteral` at the current offset. -/
def CommandParser.lit (p : CommandParser) (l : List Char) :
    Except ParseError CommandParser :=
  if l.isPrefixOf p.rest then
    .ok { command := p.command, offset := p.offset + l.length }
  else
    .error (p.mkError .BadLiteral)

/-- `CommandParser::read_while`: consume the longest run of leading characters
satisfying `f`; return the consumed run and the advanced parser. -/
def CommandParser.readWhile (p : CommandParser) (f : Char → Bool) :
    List Char × CommandParser :=
  let consumed := p.rest.takeWhile f
  (consumed, { command := p.command, offset := p.offset + consumed.length })

/-- `CommandParser::end`. -/
def CommandParser.expectEnd (p : CommandParser) : Except ParseError Unit :=
  if p.offset = p.command.length then .ok () else .error (p.mkError .ExpectedEof)

/-- `CommandParser::branch`: an independent copy at the current position. -/
def CommandParser.branch (p : CommandParser) : CommandParser :=
  { command := p.command, offset := p.offset }

/-- Numeric value of a run of ASCII digits, exactly as `str::parse` computes
it for an all-digit string (no wrapping; overflow of the target type is an
`Err` from `str::parse`). -/
def natOfDigits (ds : List Char) : Nat :=
  ds.foldl (fun a c => a * 10 + (c.toNat - 48)) 0

/-- Unsigned-integer `Argument` impl of the tree lineage
(`argument_impl_int!` in `src/src/parser.rs`), with the target type's maximum
value as the parameter `max`: read a digit run; empty run ⇒ `BadArgument`;
`num.parse::<$t>()` fails exactly on overflow and is mapped to `BadArgument`
by `map_err`. -/
def parseUIntSrc (max : Nat) (p : CommandParser) :
    Except ParseError (Nat × CommandParser) :=
  let (num, p1) := p.readWhile Char.isDigit
  if num = [] then
    .error (p1.mkError .BadArgument)
  else if natOfDigits num ≤ max then
    .ok (natOfDigits num, p1)
  else
    .error (p1.mkError .BadArgument)

/-- Unsigned-integer `Argument` impl of the flat-form lineage
(`argument_impl_int!` in `src/oberst/src/parser.rs`): identical digit scan,
but the result of `num.parse::<$t>()` is `.unwrap()`ed, so overflow of the
target type panics (`none`) instead of producing an error. -/
def parseUIntOberst (max : Nat) (p : CommandParser) :
    Option (Except ParseError (Nat × CommandParser)) :=
  let (num, p1) := p.readWhile Char.isDigit
  if num = [] then
    some (.error (p1.mkError .BadArgument))
  else if natOfDigits num ≤ max then
    some (.ok (natOfDigits num, p1))
  else
    none

/-- The stateful closure passed to `read_while` by `impl Argument for String`:
walks the input, consuming characters until an unescaped `"`.  `escape` is the
closure's `escape` flag, `acc` its `result` accumulator.  When `pushPlain` is
`true` this is the tree-lineage closure (`src/src/parser.rs`, which pushes
every plain character); when `false` it is the flat-form-lineage closure
(`src/oberst/src/parser.rs`, which pushes only escaped characters).  Returns
the accumulated `result` and the number of characters consumed. -/
def scanQuoted (pushPlain : Bool) : Bool → List Char → List Char → List Char × Nat
  | _, acc, [] => (acc, 0)
  | escape, acc, c :: rest =>
    if escape then
      let (r, n) := scanQuoted pushPlain false (acc ++ [c]) rest
      (r, n + 1)
    else if c = '\\' then
      let (r, n) := scanQuoted pushPlain true acc rest
      (r, n + 1)
    else if c = '"' then
      (acc, 0)
    else
      let (r, n) := scanQuoted pushPlain false (if pushPlain then acc ++ [c] else acc) rest
      (r, n + 1)

/-- `impl Argument for String` on `CommandParser` (both lineages; the
`pushPlain` flag selects the lineage as in `scanQuoted`):
`parser.lit("\"")?`, the stateful `read_while`, then `parser.lit("\"")?`. -/
def parseStringImpl (pushPlain : Bool) (p : CommandParser) :
    Except ParseError (List Char × CommandParser) := do
  let p1 ← p.lit ['"']
  let (result, n) := scanQuoted pushPlain false [] p1.rest
  let p2 : CommandParser := { command := p1.command, offset := p1.offset + n }
  let p3 ← p2.lit ['"']
  .ok (result, p3)

/-- `impl Display for ParseError` (`src/src/parser.rs`; identical code in
`src/oberst/src/parser.rs` minus the `ExpectedWhitespace` arm).  The snippet
slice `&self.command[start..end]` is computed before the `match`, with
`start = offset.saturating_sub(10)` and `end = offset + 10` unclamped, so the
slice is out of bounds (a panic, modelled by `none`) whenever
`offset + 10 > command.len()`. -/
def ParseError.display (e : ParseError) : Option (List Char) :=
  let start := e.offset - 10
  let stop := e.offset + 10
  if stop ≤ e.command.length then
    let snippet := (e.command.drop start).take (stop - start)
    some (match e.kind with
      | .UnknownCommand => "Unknown command: `".toList ++ snippet ++ ['`']
      | .UnexpectedEof => "Unexpected end of command".toList
      | .ExpectedEof => "Expected end of command".toList
      | .BadArgument => "Bad argument".toList
      | .BadLiteral => "Bad literal".toList
      | .ExpectedWhitespace => "Expected whitespace".toList)
  else
    none

/-- Mirrors `enum MatchError` (`src/src/matchers.rs`). -/
inductive MatchError where
  | EndOfInput
  | InvalidInput (rest : List Char)
deriving DecidableEq, Repr

/-- Mirrors `CommandArgs` (`src/src/arguments.rs`): a map from slot name to a
boxed value.  The only `Argument` impl in the tree lineage produces `String`
values, so the stored values are strings. -/
def CommandArgs := List (List Char × List Char)
deriving DecidableEq, Repr

/-- `CommandArgs::new`. -/
def CommandArgs.new : CommandArgs := []

/-- `CommandArgs::insert` (a `HashMap::insert`: replaces any previous value
under the key). -/
def CommandArgs.insert (m : CommandArgs) (k v : List Char) : CommandArgs :=
  (List.filter (fun p => p.1 ≠ k) m) ++ [(k, v)]

/-- `CommandArgs::get` restricted to string values. -/
def CommandArgs.get (m : CommandArgs) (k : List Char) : Option (List Char) :=
  (List.find? (fun p => p.1 = k) m).map (fun p => p.2)

/-- `impl Argument for String` in `src/src/matchers.rs`.  With a leading `"`,
`end` is `input[1..].find('"')` (an index relative to `input[1..]`), the
consumed length is `end + 2` and the value is the slice `input[1..end]` taken
with `end` as an absolute index — a slice that panics (`none`) when
`end = 0`, i.e. on the input `""`.  Without a leading `"`, the value is the
bare word up to the next space or the end of input. -/
def strArgApply (input : List Char) : Option (Except MatchError (Nat × List Char)) :=
  if input.take 1 = ['"'] then
    match (input.drop 1).findIdx? (fun c => c = '"') with
    | none => some (.error .EndOfInput)
    | some e =>
      if e = 0 then
        none
      else
        some (.ok (e + 2, (input.drop 1).take (e - 1)))
  else
    let e := ((input.findIdx? (fun c => c = ' ')).getD input.length)
    some (.ok (e, input.take e))

/-- The matchers usable behind `Box<dyn Argument>` in the tree lineage; the
crate's only impl is the one for `String`. -/
inductive ArgMatcher where
  | strArg

/-- Dynamic dispatch of `Argument::apply`. -/
def ArgMatcher.applyArg : ArgMatcher → List Char → Option (Except MatchError (Nat × List Char))
  | .strArg, input => strArgApply input

/-- Mirrors `enum Checkpoint` (`src/src/matchers.rs`). -/
inductive Checkpoint where
  | Literal (lit : List Char)
  | Argument (name : List Char) (m : ArgMatcher)
  | Wildcard

/-- `Checkpoint::apply`.  In the `Literal` arm, a non-empty input that does
not start with the literal produces `InvalidInput(&input[..lit.len()])` — a
slice that panics (`none`) when the input is shorter than the literal. -/
def Checkpoint.apply (c : Checkpoint) (input : List Char) (args : CommandArgs) :
    Option (Except MatchError (Nat × CommandArgs)) :=
  match c with
  | .Literal lit =>
    if input.length = 0 then
      some (.error .EndOfInput)
    else if lit.isPrefixOf input then
      some (.ok (lit.length, args))
    else if lit.length ≤ input.length then
      some (.error (.InvalidInput (input.take lit.length)))
    else
      none
  | .Argument name m =>
    match m.applyArg input with
    | none => none
    | some (.error e) => some (.error e)
    | some (.ok (advance, v)) => some (.ok (advance, args.insert name v))
  | .Wildcard => some (.ok (0, args))

/-- `str::trim_start`. -/
def trimStart (s : List Char) : List Char :=
  s.dropWhile Char.isWhitespace

/-- Mirrors `struct CommandNode<C> { checkpoint, children, executes }`
(`src/src/lib.rs`).  The handler `Fn(&mut C, &CommandArgs)` is modelled as a
function from the context and the argument store to the updated context. -/
inductive CommandNode (C : Type) where
  | mk (checkpoint : Checkpoint) (children : List (CommandNode C))
       (executes : Option (C → CommandArgs → C))

/-- The node's checkpoint. -/
def CommandNode.checkpoint {C : Type} : CommandNode C → Checkpoint
  | .mk cp _ _ => cp

mutual

/-- `CommandNode::execute` (`src/src/lib.rs`): build a fresh `CommandArgs`,
apply the node's checkpoint, trim the remainder; if it is empty, run the
handler (or fail with `EndOfInput`); otherwise recurse into the children in
order.  A panic anywhere (from `Checkpoint::apply` or the remainder slice)
propagates as `none`. -/
def CommandNode.execute {C : Type} :
    CommandNode C → C → List Char → Option (C × Except MatchError Unit)
  | .mk cp children executes, ctx, command =>
    match cp.apply command CommandArgs.new with
    | none => none
    | some (.error e) => some (ctx, .error e)
    | some (.ok (advance, args)) =>
      if advance ≤ command.length then
        let rest := trimStart (command.drop advance)
        if rest = [] then
          match executes with
          | none => some (ctx, .error .EndOfInput)
          | some f => some (f ctx args, .ok ())
        else
          execChildren children ctx rest
      else
        none

/-- The `for child in &self.children` loop of `CommandNode::execute`: a child
returning `Ok` ends the dispatch; a child's `Err` is discarded and the next
child is tried; when no child matches, `InvalidInput(remainder)`. -/
def execChildren {C : Type} :
    List (CommandNode C) → C → List Char → Option (C × Except MatchError Unit)
  | [], ctx, command => some (ctx, .error (.InvalidInput command))
  | child :: rest, ctx, command =>
    match child.execute ctx command with
    | none => none
    | some (ctx1, .ok ()) => some (ctx1, .ok ())
    | some (ctx1, .error _) => execChildren rest ctx1 command

end

/-- `Dispatcher::dispatch` (`src/src/lib.rs`): trim leading whitespace and
execute the root node. -/
def treeDispatch {C : Type} (root : CommandNode C) (ctx : C) (command : List Char) :
    Option (C × Except MatchError Unit) :=
  root.execute ctx (trimStart command)

/-- `char::is_alphabetic` (the claim inputs are ASCII, where it coincides
with `Char.isAlpha`). -/
def isAlphabetic (c : Char) : Bool := c.isAlpha

/-- A `CommandDispatch<Context>` of the flat-form lineage
(`src/oberst/src/lib.rs`): its `parser` takes a `CommandParser` and either
fails with a `ParseError` or yields the `Execute` closure.  The closure's
`Result<(), CommandError>` is modelled as a `Bool` (`true` = `Ok`); `none`
models a panic inside the parser (e.g. the integer overflow `unwrap`). -/
structure FormD (Ctx : Type) where
  parse : CommandParser → Option (Except ParseError (Ctx → Bool))

/-- What one `dispatch` call returned. -/
inductive DispatchOutcome where
  | ok
  | errParse (e : ParseError)
  | errDispatch
deriving DecidableEq, Repr

/-- Instrumented result of the form-trying loop of `CommandSource::dispatch`:
`attempts` counts the forms whose parser was invoked, `execs` the handlers
that were executed. -/
structure TryResult where
  attempts : Nat
  execs : Nat
  outcome : DispatchOutcome
deriving DecidableEq, Repr

/-- The `for dispatch in command.dispatchers` loop of
`CommandSource::dispatch` (`src/oberst/src/lib.rs`), carrying `last_error`.
The first parser that succeeds has its `Execute` closure run immediately and
the loop returns; a failing parser only updates `last_error`.  After the
loop, `last_error.expect(..)` panics (`none`) when no form was attempted. -/
def tryForms {Ctx : Type} (ctx : Ctx) (p : CommandParser) :
    List (FormD Ctx) → Option ParseError → Option TryResult
  | [], none => none
  | [], some e => some { attempts := 0, execs := 0, outcome := .errParse e }
  | f :: rest, _ =>
    match f.parse p.branch with
    | none => none
    | some (.ok execute) =>
      some { attempts := 1, execs := 1,
             outcome := if execute ctx then .ok else .errDispatch }
    | some (.error e) =>
      (tryForms ctx p rest (some e)).map
        (fun r => { r with attempts := r.attempts + 1 })

/-- `HashMap::get` over the registry, modelled as an association list with
distinct keys. -/
def assocLookup {α : Type} : List (List Char × α) → List Char → Option α
  | [], _ => none
  | (k, v) :: rest, key => if k = key then some v else assocLookup rest key

/-- `CommandSource::dispatch` (`src/oberst/src/lib.rs`): read the command
name by scanning leading alphabetic characters, look it up, and try the
registered forms in order on branches of the parser; an unknown name yields
`UnknownCommand` at the parser's current offset (the end of the scanned
name). -/
def dispatch {Ctx : Type} (ctx : Ctx) (reg : List (List Char × List (FormD Ctx)))
    (command : List Char) : Option TryResult :=
  let p0 := CommandParser.new command
  let (name, p) := p0.readWhile isAlphabetic
  match assocLookup reg name with
  | none => some { attempts := 0, execs := 0, outcome := .errParse (p.mkError .UnknownCommand) }
  | some forms => tryForms ctx p forms none

/-- `u32::MAX`. -/
def u32Max : Nat := 2 ^ 32 - 1

/-- The parser generated by `define_command!` for the variant
`#[usage = "with <arg>"] fn bar(ctx: &Context, arg: u32)` —
`CommandVariant::generate_parser` in `src/oberst_proc/src/lib.rs` emits
`parser.lit("with")?; let arg = parser.argument::<u32>()?;` followed by the
caller `Ok(Box::new(|ctx| { bar(ctx, arg) }))`; `bar` in
`src/oberst/src/test.rs` returns `Ok(())`.  Note the emitted sequence
contains no whitespace handling of any kind. -/
def fooFormParse (p : CommandParser) : Option (Except ParseError (Unit → Bool)) :=
  match p.lit "with".toList with
  | .error e => some (.error e)
  | .ok p1 =>
    match parseUIntOberst u32Max p1 with
    | none => none
    | some (.error e) => some (.error e)
    | some (.ok (_arg, _p2)) => some (.ok (fun _ => true))

/-- The registry of the first concrete spec scenario: `foo` registered with
the single form `["with", Arg<u32> "arg"]`. -/
def fooRegistry : List (List Char × List (FormD Unit)) :=
  [("foo".toList, [{ parse := fooFormParse }])]

/-- A handler that records the argument store it is handed into the context
(`runs(|ctx, args| ...)` observing its `args`). -/
def recordingHandler : Option CommandArgs → CommandArgs → Option CommandArgs :=
  fun _ args => some args

/-- The tree `root.then(argument("x", String).then(literal("go").runs(h)))`:
a root wildcard, under it an argument checkpoint named `x` using the crate's
`String` matcher, under that a literal `go` carrying the recording handler. -/
def argTree : CommandNode (Option CommandArgs) :=
  .mk .Wildcard
    [ .mk (.Argument "x".toList .strArg)
        [ .mk (.Literal "go".toList) [] (some recordingHandler) ] none ] none

/-- A form whose parser always fails with `BadLiteral` at offset 0. -/
def failFormA : FormD Unit :=
  { parse := fun _ => some (.error { command := [], offset := 0, kind := .BadLiteral }) }

/-- A form whose parser always fails with `BadArgument` at offset 1. -/
def failFormB : FormD Unit :=
  { parse := fun _ => some (.error { command := [], offset := 1, kind := .BadArgument }) }

/-- A form whose parser always succeeds with a handler returning `Ok`. -/
def okForm : FormD Unit :=
  { parse := fun _ => some (.ok (fun _ => true)) }

end Oberst

namespace Oberst

/-- Helper: `read_while` on a fresh parser consumes exactly the longest
satisfying run of the input. -/
theorem readWhile_new (command : List Char) (f : Char → Bool) :
    (CommandParser.new command).readWhile f
      = (command.takeWhile f,
         { command := command, offset := (command.takeWhile f).length }) := by
  simp [CommandParser.readWhile, CommandParser.new, CommandParser.rest]

/-- Helper: `dispatch` unfolded through the name scan. -/
theorem dispatch_scan {Ctx : Type} (ctx : Ctx) (reg : List (List Char × List (FormD Ctx)))
    (command name : List Char) (p : CommandParser)
    (hscan : (CommandParser.new command).readWhile isAlphabetic = (name, p)) :
    dispatch ctx reg command =
      match assocLookup reg name with
      | none => some { attempts := 0, execs := 0,
                       outcome := .errParse (p.mkError .UnknownCommand) }
      | some forms => tryForms ctx p forms none := by
  simp only [dispatch, hscan]

/-- Helper: one loop iteration whose parser panics. -/
theorem tryForms_cons_panic {Ctx : Type} {ctx : Ctx} {p : CommandParser} {f : FormD Ctx}
    {rest : List (FormD Ctx)} {last : Option ParseError}
    (hf : f.parse p.branch = none) :
    tryForms ctx p (f :: rest) last = none := by
  simp [tryForms, hf]

/-- Helper: one loop iteration whose parser succeeds — the handler runs and
the loop returns at once. -/
theorem tryForms_cons_ok {Ctx : Type} {ctx : Ctx} {p : CommandParser} {f : FormD Ctx}
    {rest : List (FormD Ctx)} {last : Option ParseError} {h : Ctx → Bool}
    (hf : f.parse p.branch = some (.ok h)) :
    tryForms ctx p (f :: rest) last
      = some { attempts := 1, execs := 1,
               outcome := if h ctx then .ok else .errDispatch } := by
  simp [tryForms, hf]

/-- Helper: one loop iteration whose parser fails — `last_error` is updated
and the loop continues with the remaining forms. -/
theorem tryForms_cons_error {Ctx : Type} {ctx : Ctx} {p : CommandParser} {f : FormD Ctx}
    {rest : List (FormD Ctx)} {last : Option ParseError} {e : ParseError}
    (hf : f.parse p.branch = some (.error e)) :
    tryForms ctx p (f :: rest) last
      = (tryForms ctx p rest (some e)).map
          (fun r => { r with attempts := r.attempts + 1 }) := by
  simp [tryForms, hf]

/-- Helper: the form-trying loop runs at most one handler. -/
theorem tryForms_execs_le_one {Ctx : Type} (ctx : Ctx) (p : CommandParser) :
    ∀ (fs : List (FormD Ctx)) (last : Option ParseError) (r : TryResult),
      tryForms ctx p fs last = some r → r.execs ≤ 1 := by
  intro fs
  induction fs with
  | nil =>
    intro last r h
    cases last with
    | none => simp [tryForms] at h
    | some e =>
      simp only [tryForms, Option.some.injEq] at h
      subst h
      simp
  | cons f rest ih =>
    intro last r h
    cases hp : f.parse p.branch with
    | none => rw [tryForms_cons_panic hp] at h; cases h
    | some v =>
      cases v with
      | ok g =>
        rw [tryForms_cons_ok hp] at h
        cases h
        simp
      | error e =>
        rw [tryForms_cons_error hp] at h
        cases ht : tryForms ctx p rest (some e) with
        | none => rw [ht] at h; cases h
        | some r1 =>
          rw [ht] at h
          simp only [Option.map_some', Option.some.injEq] at h
          subst h
          simpa using ih (some e) r1 ht

/-- Helper: once the parsers of a prefix of forms have all failed and the
next form's parser succeeds, its handler runs and the loop stops — the forms
after it are never attempted, whatever the handler returns. -/
theorem tryForms_first_success {Ctx : Type} (ctx : Ctx) (p : CommandParser) :
    ∀ (fs1 : List (FormD Ctx)) (f : FormD Ctx) (fs2 : List (FormD Ctx))
      (h : Ctx → Bool) (last : Option ParseError),
      (∀ g ∈ fs1, ∃ e, g.parse p.branch = some (.error e)) →
      f.parse p.branch = some (.ok h) →
      tryForms ctx p (fs1 ++ f :: fs2) last
        = some { attempts := fs1.length + 1, execs := 1,
                 outcome := if h ctx then .ok else .errDispatch } := by
  intro fs1
  induction fs1 with
  | nil =>
    intro f fs2 h last _ hf
    simpa using tryForms_cons_ok hf
  | cons g rest ih =>
    intro f fs2 h last hfail hf
    obtain ⟨e, hg⟩ := hfail g (by simp)
    have hrec := ih f fs2 h (some e) (fun g' hg' => hfail g' (by simp [hg'])) hf
    rw [List.cons_append, tryForms_cons_error hg, hrec]
    simp

/-- Helper: when every form's parser fails, the loop reports the error of the
last form, with no handler executed. -/
theorem tryForms_all_fail {Ctx : Type} (ctx : Ctx) (p : CommandParser) :
    ∀ (fs : List (FormD Ctx)) (hne : fs ≠ []) (last : Option ParseError) (e : ParseError),
      (∀ f ∈ fs, ∃ err, f.parse p.branch = some (.error err)) →
      (fs.getLast hne).parse p.branch = some (.error e) →
      tryForms ctx p fs last
        = some { attempts := fs.length, execs := 0, outcome := .errParse e } := by
  intro fs
  induction fs with
  | nil => intro hne; exact absurd rfl hne
  | cons f rest ih =>
    intro hne last e hfail hlast
    cases rest with
    | nil =>
      simp only [List.getLast_singleton] at hlast
      rw [tryForms_cons_error hlast]
      simp [tryForms]
    | cons g rest2 =>
      obtain ⟨err, hf⟩ := hfail f (by simp)
      have hlast2 : ((g :: rest2).getLast (by simp)).parse p.branch = some (.error e) := by
        rwa [List.getLast_cons (by simp)] at hlast
      have hrec := ih (by simp) (some err) e (fun f' hf' => hfail f' (by simp [hf'])) hlast2
      rw [tryForms_cons_error hf, hrec]
      simp

/-- C1: with `foo` registered with the single form `["with", Arg<u32> "arg"]`
(the parser emitted by `define_command!` for `#[usage = "with <arg>"]`),
`dispatch("foo with 42")` does NOT invoke the handler: the name scan stops at
the space after `foo`, the generated parser immediately tries
`parser.lit("with")` against `" with 42"` without consuming any whitespace,
and the single form fails, so dispatch returns a `BadLiteral` parse error at
offset 3 and zero handlers execute — not `Ok(0)` with `arg = 42`. -/
theorem c1_dispatch_foo_with_42_fails :
    dispatch () fooRegistry "foo with 42".toList
      = some { attempts := 1, execs := 0,
               outcome := .errParse { command := "foo with 42".toList, offset := 3,
                                      kind := .BadLiteral } } := by decide

/-- C2: in the tree lineage the Argument Store handed to a handler does NOT
contain the values of ancestor argument checkpoints: on the tree
`Wildcard → Argument("x", String) → Literal("go") + handler` and the input
`"val go"`, the ancestor checkpoint parses and stores `x = "val"` (first
conjunct), the dispatch succeeds and invokes the handler (second conjunct),
yet the store the handler receives is the fresh empty `CommandArgs` of the
`go` node, in which `x` is absent (third conjunct) — `CommandNode::execute`
builds a new `CommandArgs` per node, dropping ancestor values. -/
theorem c2_handler_gets_partial_store :
    Checkpoint.apply (.Argument "x".toList .strArg) "val go".toList CommandArgs.new
      = some (.ok (3, [("x".toList, "val".toList)])) ∧
    treeDispatch argTree none "val go".toList = some (some CommandArgs.new, .ok ()) ∧
    CommandArgs.get CommandArgs.new "x".toList = none := by decide

/-- C3: parsing the digit run `"256"` as `u8` (maximum 255) in the flat-form
lineage panics (`num.parse::<u8>().unwrap()` on the overflow `Err`, modelled
by `none`) instead of returning `BadArgument`; the tree lineage's otherwise
identical implementation maps the same overflow to `BadArgument`, returns the
value for an in-range digit run, and returns `BadArgument` for an empty digit
run. -/
theorem c3_u8_overflow_panics_in_flat_lineage :
    parseUIntOberst 255 (CommandParser.new "256".toList) = none ∧
    parseUIntSrc 255 (CommandParser.new "256".toList)
      = .error { command := "256".toList, offset := 3, kind := .BadArgument } ∧
    parseUIntSrc 255 (CommandParser.new "255".toList)
      = .ok (255, { command := "255".toList, offset := 3 }) ∧
    parseUIntSrc 255 (CommandParser.new [])
      = .error { command := [], offset := 0, kind := .BadArgument } := by decide

/-- C4: the flat-form lineage's `impl Argument for String` pushes only
escape-consumed characters into the result, so parsing `"a\"b"` yields the
one-character value `"` instead of `a"b`; the tree lineage's version (which
also pushes plain characters) yields `a"b` as the claim states, and both
versions reject the unterminated `"abc` with a `BadLiteral` error at end of
input rather than panicking. -/
theorem c4_quoted_string_drops_plain_chars :
    parseStringImpl false (CommandParser.new "\"a\\\"b\"".toList)
      = .ok (['"'], { command := "\"a\\\"b\"".toList, offset := 6 }) ∧
    "a\"b".toList ≠ ['"'] ∧
    parseStringImpl true (CommandParser.new "\"a\\\"b\"".toList)
      = .ok ("a\"b".toList, { command := "\"a\\\"b\"".toList, offset := 6 }) ∧
    parseStringImpl false (CommandParser.new "\"abc".toList)
      = .error { command := "\"abc".toList, offset := 4, kind := .BadLiteral } ∧
    parseStringImpl true (CommandParser.new "\"abc".toList)
      = .error { command := "\"abc".toList, offset := 4, kind := .BadLiteral } := by decide

/-- C5: a single `dispatch` call executes at most one handler.  First
conjunct: for every context, registry and input, the instrumented dispatch
records at most one handler execution.  Second conjunct: in the form loop,
once the parsers of a prefix of forms have failed and the next form fully
matches, exactly that one handler runs and no later form is attempted
(`attempts` stops at the matching form), even when the handler itself
returns an error (`h ctx = false`). -/
theorem c5_at_most_one_handler :
    (∀ (Ctx : Type) (ctx : Ctx) (reg : List (List Char × List (FormD Ctx)))
       (command : List Char) (r : TryResult),
       dispatch ctx reg command = some r → r.execs ≤ 1) ∧
    (∀ (Ctx : Type) (ctx : Ctx) (p : CommandParser) (fs1 : List (FormD Ctx))
       (f : FormD Ctx) (fs2 : List (FormD Ctx)) (h : Ctx → Bool),
       (∀ g ∈ fs1, ∃ e, g.parse p.branch = some (.error e)) →
       f.parse p.branch = some (.ok h) →
       tryForms ctx p (fs1 ++ f :: fs2) none
         = some { attempts := fs1.length + 1, execs := 1,
                  outcome := if h ctx then .ok else .errDispatch }) := by
  constructor
  · intro Ctx ctx reg command r h
    rw [dispatch_scan ctx reg command _ _ (readWhile_new command isAlphabetic)] at h
    cases hl : assocLookup reg (command.takeWhile isAlphabetic) with
    | none =>
      rw [hl] at h
      cases h
      simp
    | some forms =>
      rw [hl] at h
      exact tryForms_execs_le_one ctx _ forms none r h
  · intro Ctx ctx p fs1 f fs2 h hfail hf
    exact tryForms_first_success ctx p fs1 f fs2 h none hfail hf

/-- C5 witness: three forms where the first fails, the second matches and the
third would also match — exactly one handler runs and the third form is
never attempted. -/
theorem c5_at_most_one_handler_witness :
    tryForms () (CommandParser.new "x".toList) [failFormA, okForm, failFormB] none
      = some { attempts := 2, execs := 1, outcome := .ok } := by
  have h := c5_at_most_one_handler.2 Unit () (CommandParser.new "x".toList)
      [failFormA] okForm [failFormB] (fun _ => true)
      (by intro g hg; simp only [List.mem_singleton] at hg; subst hg; exact ⟨_, rfl⟩)
      rfl
  exact h.trans (by decide)

/-- C6: when the scanned command name is registered and every one of its
forms fails to parse, `dispatch` returns the parse error produced by the
last form in registration order (each failure overwrites `last_error`), with
no handler executed. -/
theorem c6_last_error_returned :
    ∀ (Ctx : Type) (ctx : Ctx) (reg : List (List Char × List (FormD Ctx)))
      (command name : List Char) (p : CommandParser) (forms : List (FormD Ctx))
      (e : ParseError)
      (hscan : (CommandParser.new command).readWhile isAlphabetic = (name, p))
      (hreg : assocLookup reg name = some forms)
      (hne : forms ≠ [])
      (hfail : ∀ f ∈ forms, ∃ err, f.parse p.branch = some (.error err))
      (hlast : (forms.getLast hne).parse p.branch = some (.error e)),
      dispatch ctx reg command
        = some { attempts := forms.length, execs := 0, outcome := .errParse e } := by
  intro Ctx ctx reg command name p forms e hscan hreg hne hfail hlast
  rw [dispatch_scan ctx reg command name p hscan, hreg]
  exact tryForms_all_fail ctx p forms hne none e hfail hlast

/-- C6 witness: `foo` registered with two always-failing forms with distinct
errors; dispatching `foo` returns the second (last) form's error, not the
first's. -/
theorem c6_last_error_witness :
    dispatch () [("foo".toList, [failFormA, failFormB])] "foo".toList
      = some { attempts := 2, execs := 0,
               outcome := .errParse { command := [], offset := 1, kind := .BadArgument } } := by
  refine c6_last_error_returned Unit () _ "foo".toList "foo".toList
      { command := "foo".toList, offset := 3 } [failFormA, failFormB]
      { command := [], offset := 1, kind := .BadArgument } (by decide) rfl (by simp) ?_ rfl
  intro f hf
  fin_cases hf
  · exact ⟨_, rfl⟩
  · exact ⟨_, rfl⟩

/-- C7 counterexample: dispatching `"qux"` against an empty registry returns
`UnknownCommand`, but its recorded offset is 3 — the end of the scanned
alphabetic name — not 0 as claimed: `CommandSource::dispatch` builds the
error with `parser.error(..)` only after `read_while` has advanced the
parser past the name. -/
theorem c7_unknown_offset_counterexample :
    dispatch () ([] : List (List Char × List (FormD Unit))) "qux".toList
      = some { attempts := 0, execs := 0,
               outcome := .errParse { command := "qux".toList, offset := 3,
                                      kind := .UnknownCommand } }
    ∧ (3 : Nat) ≠ 0 := by decide

/-- C7 amended: dispatching an input whose scanned alphabetic name is not
registered returns `UnknownCommand` whose recorded offset is the length of
the scanned name (the name's end boundary), e.g. 3 for `qux` — not 0. -/
theorem c7_unknown_offset_amended :
    ∀ (Ctx : Type) (ctx : Ctx) (reg : List (List Char × List (FormD Ctx)))
      (command : List Char),
      assocLookup reg (command.takeWhile isAlphabetic) = none →
      dispatch ctx reg command
        = some { attempts := 0, execs := 0,
                 outcome := .errParse { command := command,
                                        offset := (command.takeWhile isAlphabetic).length,
                                        kind := .UnknownCommand } } := by
  intro Ctx ctx reg command h
  rw [dispatch_scan ctx reg command _ _ (readWhile_new command isAlphabetic), h]
  rfl

/-- C7 witness: the amended statement at the concrete input `quux` against an
empty registry — `UnknownCommand` at offset 4, the end of the scanned name. -/
theorem c7_unknown_offset_witness :
    dispatch () ([] : List (List Char × List (FormD Unit))) "quux".toList
      = some { attempts := 0, execs := 0,
               outcome := .errParse { command := "quux".toList, offset := 4,
                                      kind := .UnknownCommand } } := by
  have h := c7_unknown_offset_amended Unit () [] "quux".toList rfl
  exact h.trans (by decide)

/-- C8: the tree-lineage `String` matcher's quoted branch consumes both
quotes (`end + 2` for `"ab"` is 4) but yields the value `a`, dropping the
last character before the closing quote (the slice `input[1..end]` uses the
relative index `end` as an absolute end), not the full between-quotes text
`ab`; on the empty quoted string `""` the slice `input[1..0]` panics
(`none`); the unquoted branch behaves as claimed, taking the bare word up to
the next space or to the end of input. -/
theorem c8_quoted_value_drops_last_char :
    strArgApply "\"ab\"".toList = some (.ok (4, "a".toList)) ∧
    "a".toList ≠ "ab".toList ∧
    strArgApply "\"\"".toList = none ∧
    strArgApply "hello world".toList = some (.ok (5, "hello".toList)) ∧
    strArgApply "hello".toList = some (.ok (5, "hello".toList)) := by decide

/-- C9 counterexample: formatting the `UnknownCommand` error produced by
`dispatch("qux")` — source `"qux"`, offset 3 — panics: the snippet slice end
`offset + 10 = 13` exceeds the 3-byte source, so `Display` is not total at
errors raised near the end of input. -/
theorem c9_display_panics_near_end :
    ParseError.display { command := "qux".toList, offset := 3, kind := .UnknownCommand }
      = none := by decide

/-- C9 amended: formatting a `ParseError` succeeds exactly when
`offset + 10 ≤ len(source)`: the snippet start is clamped by
`saturating_sub` but the end `offset + 10` is not, so any error within 10
bytes of the end of the source makes the snippet slice panic. -/
theorem c9_display_in_bounds_iff :
    ∀ e : ParseError, (ParseError.display e).isSome ↔ e.offset + 10 ≤ e.command.length := by
  intro e
  simp only [ParseError.display]
  split <;> simp_all

/-- C10 counterexample: applying the `Literal("foo")` checkpoint to the
non-empty input `"ab"`, which does not start with the literal and is shorter
than it, panics (`none`): the slice `&input[..lit.len()]` is `&"ab"[..3]`,
out of bounds. -/
theorem c10_literal_short_input_panics :
    Checkpoint.apply (.Literal "foo".toList) "ab".toList CommandArgs.new = none := by decide

/-- C10 amended: applying a `Literal` checkpoint returns `EndOfInput` on
empty input; for non-empty input that does not start with the literal it
returns `InvalidInput` carrying the first `lit.len()` bytes only when the
input is at least `lit.len()` bytes long — when the input is shorter than
the literal, the slice `&input[..lit.len()]` is out of bounds and the code
panics. -/
theorem c10_literal_apply_amended :
    ∀ (lit input : List Char) (args : CommandArgs),
      (input = [] →
        Checkpoint.apply (.Literal lit) input args = some (.error .EndOfInput)) ∧
      (input ≠ [] → ¬ lit.isPrefixOf input → lit.length ≤ input.length →
        Checkpoint.apply (.Literal lit) input args
          = some (.error (.InvalidInput (input.take lit.length)))) ∧
      (input ≠ [] → ¬ lit.isPrefixOf input → input.length < lit.length →
        Checkpoint.apply (.Literal lit) input args = none) := by
  intro lit input args
  refine ⟨?_, ?_, ?_⟩
  · intro h
    subst h
    simp [Checkpoint.apply]
  · intro h1 h2 h3
    simp [Checkpoint.apply, List.length_eq_zero, h1, h2, h3]
  · intro h1 h2 h3
    simp [Checkpoint.apply, List.length_eq_zero, h1, h2, Nat.not_le.mpr h3]

/-- C10 witness: the three branches of the amended statement at concrete
inputs for the literal `foo`: empty input, the 3-byte input `bar`, and the
2-byte input `fo`. -/
theorem c10_literal_apply_witness :
    Checkpoint.apply (.Literal "foo".toList) [] CommandArgs.new
      = some (.error .EndOfInput) ∧
    Checkpoint.apply (.Literal "foo".toList) "bar".toList CommandArgs.new
      = some (.error (.InvalidInput "bar".toList)) ∧
    Checkpoint.apply (.Literal "foo".toList) "fo".toList CommandArgs.new = none := by
  refine ⟨(c10_literal_apply_amended "foo".toList [] CommandArgs.new).1 rfl, ?_, ?_⟩
  · have h := (c10_literal_apply_amended "foo".toList "bar".toList CommandArgs.new).2.1
      (by decide) (by decide) (by decide)
    exact h.trans (by decide)
  · exact (c10_literal_apply_amended "foo".toList "fo".toList CommandArgs.new).2.2
      (by decide) (by decide) (by decide)

end Oberst
